import Mathlib

/-!
Verification model of the null-point finding/classification pipeline and the
swept-Langmuir floating-potential extraction of this plasma-analysis library.

The repository material provides the documentation of these procedures (the
analysis notebooks) but not their implementation source, so the definitions
below are modelled from the specification: each such definition carries a
doc comment naming what is missing and which part of the specification it
follows. Rational numbers stand for the real-valued samples; the pipeline
itself only performs field operations and comparisons, so the embedding is
exact.
-/

namespace NullpointSpec

/-- A 3D point / vector with rational coordinates. -/
structure Vec3 where
  x : ℚ
  y : ℚ
  z : ℚ
deriving DecidableEq

/-- Componentwise difference of two vectors. -/
def Vec3.sub (p q : Vec3) : Vec3 := ⟨p.x - q.x, p.y - q.y, p.z - q.z⟩

/-- Maximum norm of a vector, the size measure used by the convergence checks. -/
def maxAbs (p : Vec3) : ℚ := max |p.x| (max |p.y| |p.z|)

/-- Membership in the cell-local parameter domain. -/
def inUnitCube (p : Vec3) : Prop :=
  (0 ≤ p.x ∧ p.x ≤ 1) ∧ (0 ≤ p.y ∧ p.y ≤ 1) ∧ (0 ≤ p.z ∧ p.z ≤ 1)

instance (p : Vec3) : Decidable (inUnitCube p) := by
  unfold inUnitCube; infer_instance

/-- The 8 corner samples of one field component on a cell, indexed by which
end of each axis the corner sits on. -/
def Corners : Type := Bool → Bool → Bool → ℚ

/-- Rational value of a corner index. -/
def bq (b : Bool) : ℚ := if b then 1 else 0

/-- Constant coefficient of the trilinear interpolant solved from the corners. -/
def a0 (c : Corners) : ℚ := c false false false

/-- Coefficient of x of the trilinear interpolant. -/
def aX (c : Corners) : ℚ := c true false false - c false false false

/-- Coefficient of y of the trilinear interpolant. -/
def aY (c : Corners) : ℚ := c false true false - c false false false

/-- Coefficient of z of the trilinear interpolant. -/
def aZ (c : Corners) : ℚ := c false false true - c false false false

/-- Coefficient of xy of the trilinear interpolant. -/
def aXY (c : Corners) : ℚ :=
  c true true false - c true false false - c false true false + c false false false

/-- Coefficient of yz of the trilinear interpolant. -/
def aYZ (c : Corners) : ℚ :=
  c false true true - c false true false - c false false true + c false false false

/-- Coefficient of zx of the trilinear interpolant. -/
def aZX (c : Corners) : ℚ :=
  c true false true - c true false false - c false false true + c false false false

/-- Coefficient of xyz of the trilinear interpolant. -/
def aXYZ (c : Corners) : ℚ :=
  c true true true - c true true false - c true false true - c false true true +
    c true false false + c false true false + c false false true - c false false false

/-- Modelled from the spec: the trilinear interpolant
f = a0 + a1 x + a2 y + a3 z + a4 xy + a5 yz + a6 zx + a7 xyz
of section 4.3, with coefficients solved exactly from the 8 corner samples. -/
def trilin (c : Corners) (p : Vec3) : ℚ :=
  a0 c + aX c * p.x + aY c * p.y + aZ c * p.z + aXY c * (p.x * p.y) +
    aYZ c * (p.y * p.z) + aZX c * (p.z * p.x) + aXYZ c * (p.x * p.y * p.z)

/-- Partial derivative of the trilinear interpolant along local x. -/
def dX (c : Corners) (p : Vec3) : ℚ :=
  aX c + aXY c * p.y + aZX c * p.z + aXYZ c * (p.y * p.z)

/-- Partial derivative of the trilinear interpolant along local y. -/
def dY (c : Corners) (p : Vec3) : ℚ :=
  aY c + aXY c * p.x + aYZ c * p.z + aXYZ c * (p.x * p.z)

/-- Partial derivative of the trilinear interpolant along local z. -/
def dZ (c : Corners) (p : Vec3) : ℚ :=
  aZ c + aYZ c * p.y + aZX c * p.x + aXYZ c * (p.x * p.y)

/-- A grid cell: the 8 corner samples of each of the three components,
together with the physical position of its low corner and its edge lengths. -/
structure CellData where
  u : Corners
  v : Corners
  w : Corners
  x0 : ℚ
  hx : ℚ
  y0 : ℚ
  hy : ℚ
  z0 : ℚ
  hz : ℚ

/-- All 8 corner values of a component are strictly positive. -/
def allPos (c : Corners) : Prop := ∀ b1 b2 b3, 0 < c b1 b2 b3

/-- All 8 corner values of a component are strictly negative. -/
def allNeg (c : Corners) : Prop := ∀ b1 b2 b3, c b1 b2 b3 < 0

/-- A component's 8 corner values all share one sign. A corner value of zero
satisfies both signs, so its presence prevents the condition from holding. -/
def compSameSign (c : Corners) : Prop := allPos c ∨ allNeg c

instance (c : Corners) : Decidable (compSameSign c) := by
  unfold compSameSign allPos allNeg; infer_instance

/-- Modelled from the spec: the Reduction Test of section 4.2. The
implementation of plasmapy.analysis.nullpoint is not in the provided
material; per the spec a cell is rejected when, for some one component, all
8 corner values share the same sign, zero counting as satisfying both signs. -/
def rejected (cd : CellData) : Prop :=
  compSameSign cd.u ∨ compSameSign cd.v ∨ compSameSign cd.w

instance (cd : CellData) : Decidable (rejected cd) := by
  unfold rejected; infer_instance

/-- The trilinear field of a cell evaluated at a local point. -/
def fieldAt (cd : CellData) (p : Vec3) : Vec3 :=
  ⟨trilin cd.u p, trilin cd.v p, trilin cd.w p⟩

/-- A 3x3 rational matrix. -/
structure Mat3 where
  m11 : ℚ
  m12 : ℚ
  m13 : ℚ
  m21 : ℚ
  m22 : ℚ
  m23 : ℚ
  m31 : ℚ
  m32 : ℚ
  m33 : ℚ

/-- Determinant of a 3x3 matrix. -/
def det3 (M : Mat3) : ℚ :=
  M.m11 * (M.m22 * M.m33 - M.m23 * M.m32) -
    M.m12 * (M.m21 * M.m33 - M.m23 * M.m31) +
    M.m13 * (M.m21 * M.m32 - M.m22 * M.m31)

/-- Trace of a 3x3 matrix. -/
def traceM (M : Mat3) : ℚ := M.m11 + M.m22 + M.m33

/-- Sum of the principal 2x2 minors: the second elementary symmetric function
of the eigenvalues. -/
def minorSum (M : Mat3) : ℚ :=
  (M.m11 * M.m22 - M.m12 * M.m21) + (M.m11 * M.m33 - M.m13 * M.m31) +
    (M.m22 * M.m33 - M.m23 * M.m32)

/-- Characteristic polynomial of a 3x3 matrix, evaluated at t. -/
def charPoly (M : Mat3) (t : ℚ) : ℚ :=
  t ^ 3 - traceM M * t ^ 2 + minorSum M * t - det3 M

/-- Derivative of the characteristic polynomial, evaluated at t. -/
def charPolyDeriv (M : Mat3) (t : ℚ) : ℚ :=
  3 * t ^ 2 - 2 * traceM M * t + minorSum M

/-- Discriminant of the monic cubic with elementary symmetric functions T, S, D:
negative exactly when there is one real root and a complex-conjugate pair,
zero exactly when a root is repeated. -/
def discrimCubic (T S D : ℚ) : ℚ :=
  18 * T * S * D - 4 * T ^ 3 * D + T ^ 2 * S ^ 2 - 4 * S ^ 3 - 27 * D ^ 2

/-- The fixed enumeration of topological null-point categories of section 4.5. -/
inductive NullClass
  | positiveRadial
  | negativeRadial
  | spiral
  | improperDegenerate
deriving DecidableEq

/-- Modelled from the spec: the Classifier rule of section 4.5, the
implementation not being in the provided material. The eigenvalue structure
of the Jacobian is read off its characteristic polynomial: a zero eigenvalue
is det = 0, a repeated eigenvalue is discriminant = 0 (both tagged
improper/degenerate, which the spec gives precedence by requiring such cases
be flagged rather than miscategorized); a negative discriminant is one real
eigenvalue plus a complex-conjugate pair (spiral); otherwise three distinct
real nonzero eigenvalues, and when one sign differs from the other two that
minority sign equals the sign of the determinant (radial). Three real
eigenvalues of equal sign have no minority sign; the spec's radial rule does
not cover them, so they are flagged improper/degenerate as well. -/
def classify (M : Mat3) : NullClass :=
  if det3 M = 0 ∨ discrimCubic (traceM M) (minorSum M) (det3 M) = 0 then
    NullClass.improperDegenerate
  else if discrimCubic (traceM M) (minorSum M) (det3 M) < 0 then NullClass.spiral
  else if 0 < traceM M ∧ 0 < minorSum M ∧ 0 < det3 M then NullClass.improperDegenerate
  else if traceM M < 0 ∧ 0 < minorSum M ∧ det3 M < 0 then NullClass.improperDegenerate
  else if 0 < det3 M then NullClass.positiveRadial
  else NullClass.negativeRadial

/-- Scalar multiple of a 3x3 matrix. -/
def smulM (c : ℚ) (M : Mat3) : Mat3 :=
  ⟨c * M.m11, c * M.m12, c * M.m13, c * M.m21, c * M.m22, c * M.m23,
    c * M.m31, c * M.m32, c * M.m33⟩

/-- The Jacobian transformation induced by reflecting the x axis of the grid
while keeping the sampled component values: every x-derivative changes sign,
so the first column is negated. -/
def reflectX (M : Mat3) : Mat3 :=
  ⟨-M.m11, M.m12, M.m13, -M.m21, M.m22, M.m23, -M.m31, M.m32, M.m33⟩

/-- Jacobian of the trilinear field in cell-local coordinates. -/
def jacLocal (cd : CellData) (p : Vec3) : Mat3 :=
  ⟨dX cd.u p, dY cd.u p, dZ cd.u p,
    dX cd.v p, dY cd.v p, dZ cd.v p,
    dX cd.w p, dY cd.w p, dZ cd.w p⟩

/-- Jacobian of the field with respect to the physical grid coordinates:
each local derivative divided by the corresponding cell edge length. -/
def jacPhys (cd : CellData) (p : Vec3) : Mat3 :=
  ⟨dX cd.u p / cd.hx, dY cd.u p / cd.hy, dZ cd.u p / cd.hz,
    dX cd.v p / cd.hx, dY cd.v p / cd.hy, dZ cd.v p / cd.hz,
    dX cd.w p / cd.hx, dY cd.w p / cd.hy, dZ cd.w p / cd.hz⟩

/-- Solution of M d = b by Cramer's rule (meaningful when det3 M is nonzero). -/
def solve3 (M : Mat3) (b : Vec3) : Vec3 :=
  let d := det3 M
  ⟨det3 ⟨b.x, M.m12, M.m13, b.y, M.m22, M.m23, b.z, M.m32, M.m33⟩ / d,
    det3 ⟨M.m11, b.x, M.m13, M.m21, b.y, M.m23, M.m31, b.z, M.m33⟩ / d,
    det3 ⟨M.m11, M.m12, b.x, M.m21, M.m22, b.y, M.m31, M.m32, b.z⟩ / d⟩

/-- Modelled from the spec: one Newton-Raphson iteration of section 4.4 on the
3x3 system of the three trilinear components, in cell-local coordinates.
When the Jacobian is singular the step is left as the zero step (the spec
does not describe this situation; no run proved about below meets it). -/
def newtonStep (cd : CellData) (p : Vec3) : Vec3 :=
  let J := jacLocal cd p
  if det3 J = 0 then p
  else
    let F := fieldAt cd p
    let d := solve3 J ⟨-F.x, -F.y, -F.z⟩
    ⟨p.x + d.x, p.y + d.y, p.z + d.z⟩

/-- Modelled from the spec: the maximum iteration count of section 4.4; the
spec fixes no number, the customary default of the documented interface
being 500. -/
def MAXITER : ℕ := 500

/-- Modelled from the spec: the Newton-Raphson loop of section 4.4. It stops
at the first iterate whose step size falls below the position threshold and
whose field value falls below the function threshold, and reports failure
when the iteration budget is exhausted. -/
def nrLoop (cd : CellData) (ptol ftol : ℚ) : ℕ → Vec3 → Option Vec3
  | 0, _ => none
  | n + 1, p =>
    let q := newtonStep cd p
    if maxAbs (Vec3.sub q p) < ptol ∧ maxAbs (fieldAt cd q) < ftol then some q
    else nrLoop cd ptol ftol n q

/-- Modelled from the spec: Root Refinement of section 4.4 started from a
given initial point: the Newton-Raphson loop followed by the containment
check of the converged point in the cell-local domain. -/
def refineFrom (cd : CellData) (ptol ftol : ℚ) (g : Vec3) : Option Vec3 :=
  match nrLoop cd ptol ftol MAXITER g with
  | none => none
  | some p => if inUnitCube p then some p else none

/-- Modelled from the spec: the pseudo-random initial guess inside the cell
parameter domain, at a fixed seed so that results are reproducible as
section 5 requires; the fixed-seed draw is modelled as the cell center. -/
def initialGuess : Vec3 := ⟨1/2, 1/2, 1/2⟩

/-- Root Refinement of a cell: the Newton-Raphson loop from the fixed-seed
initial guess. -/
def refine (cd : CellData) (ptol ftol : ℚ) : Option Vec3 :=
  refineFrom cd ptol ftol initialGuess

/-- Result entity: location, classification, and provenance cell. -/
structure NullPoint where
  loc : Vec3
  classification : NullClass
  cellId : ℕ × ℕ × ℕ

/-- The caller-facing grid data: three coordinate sequences and the three
field-component arrays. -/
structure FieldData where
  xs : List ℚ
  ys : List ℚ
  zs : List ℚ
  u : List (List (List ℚ))
  v : List (List (List ℚ))
  w : List (List (List ℚ))

/-- Entry of a 3D array stored as nested lists. -/
def arr3Get (a : List (List (List ℚ))) (i j k : ℕ) : ℚ :=
  ((a.getD i []).getD j []).getD k 0

/-- Coordinate of index i on the x axis. -/
def coordX (d : FieldData) (i : ℕ) : ℚ := d.xs.getD i 0

/-- Coordinate of index j on the y axis. -/
def coordY (d : FieldData) (j : ℕ) : ℚ := d.ys.getD j 0

/-- Coordinate of index k on the z axis. -/
def coordZ (d : FieldData) (k : ℕ) : ℚ := d.zs.getD k 0

/-- The cell of a grid at a triple of low-corner indices: corner samples of
the three components and the physical extent of the cell. -/
def cellOf (d : FieldData) (i j k : ℕ) : CellData where
  u := fun b1 b2 b3 => arr3Get d.u (i + b1.toNat) (j + b2.toNat) (k + b3.toNat)
  v := fun b1 b2 b3 => arr3Get d.v (i + b1.toNat) (j + b2.toNat) (k + b3.toNat)
  w := fun b1 b2 b3 => arr3Get d.w (i + b1.toNat) (j + b2.toNat) (k + b3.toNat)
  x0 := coordX d i
  hx := coordX d (i + 1) - coordX d i
  y0 := coordY d j
  hy := coordY d (j + 1) - coordY d j
  z0 := coordZ d k
  hz := coordZ d (k + 1) - coordZ d k

/-- Map a cell-local point back to physical grid coordinates. -/
def physLoc (cd : CellData) (p : Vec3) : Vec3 :=
  ⟨cd.x0 + cd.hx * p.x, cd.y0 + cd.hy * p.y, cd.z0 + cd.hz * p.z⟩

/-- Modelled from the spec: the Trilinear Consistency Test of section 4.3.
The face-by-face analytic criterion is deferred by the spec to the reference
method and is not fully specified, so the test is modelled by its stated
outcome: a surviving cell is one confirmed to contain a zero of the
trilinear field. -/
def trilinearOK (cd : CellData) : Prop :=
  ∃ p, inUnitCube p ∧ fieldAt cd p = ⟨0, 0, 0⟩

/-- Modelled from the spec: the result set of the Locator+Classifier pipeline
(sections 2 and 4): a labeled null point arises from a cell that passes the
Reduction Test and the Trilinear Consistency Test and whose Root Refinement
converges inside the cell; its location is mapped back to physical
coordinates and its classification comes from the physical Jacobian at the
converged root. -/
def Results (d : FieldData) (ptol ftol : ℚ) (np : NullPoint) : Prop :=
  ∃ i j k p, i + 1 < d.xs.length ∧ j + 1 < d.ys.length ∧ k + 1 < d.zs.length ∧
    ¬rejected (cellOf d i j k) ∧ trilinearOK (cellOf d i j k) ∧
    refine (cellOf d i j k) ptol ftol = some p ∧
    np = ⟨physLoc (cellOf d i j k) p, classify (jacPhys (cellOf d i j k) p), (i, j, k)⟩

/-- The result set restricted to cells other than a given one. -/
def ResultsExcept (d : FieldData) (ptol ftol : ℚ) (c : ℕ × ℕ × ℕ) (np : NullPoint) : Prop :=
  ∃ i j k p, i + 1 < d.xs.length ∧ j + 1 < d.ys.length ∧ k + 1 < d.zs.length ∧
    (i, j, k) ≠ c ∧
    ¬rejected (cellOf d i j k) ∧ trilinearOK (cellOf d i j k) ∧
    refine (cellOf d i j k) ptol ftol = some p ∧
    np = ⟨physLoc (cellOf d i j k) p, classify (jacPhys (cellOf d i j k) p), (i, j, k)⟩

/-- A coordinate sequence is strictly increasing. -/
def strictIncr (l : List ℚ) : Prop := l.Chain' (· < ·)

/-- A coordinate sequence is strictly decreasing. -/
def strictDecr (l : List ℚ) : Prop := l.Chain' (· > ·)

/-- A coordinate sequence is strictly monotonic. -/
def monotonicOK (l : List ℚ) : Prop := strictIncr l ∨ strictDecr l

instance (l : List ℚ) : Decidable (monotonicOK l) := by
  unfold monotonicOK strictIncr strictDecr; infer_instance

/-- One component array matches the outer product of the coordinate lengths. -/
def arrShapeOK (d : FieldData) (a : List (List (List ℚ))) : Prop :=
  a.length = d.xs.length ∧
    ∀ pl ∈ a, pl.length = d.ys.length ∧ ∀ r ∈ pl, r.length = d.zs.length

instance (d : FieldData) (a : List (List (List ℚ))) : Decidable (arrShapeOK d a) := by
  unfold arrShapeOK; infer_instance

/-- Modelled from the spec: the Grid Sampler validation of section 4.1.
Input is well formed when every coordinate sequence is strictly monotonic
and every component array matches the grid shape. -/
def validInput (d : FieldData) : Prop :=
  monotonicOK d.xs ∧ monotonicOK d.ys ∧ monotonicOK d.zs ∧
    arrShapeOK d d.u ∧ arrShapeOK d d.v ∧ arrShapeOK d d.w

instance (d : FieldData) : Decidable (validInput d) := by
  unfold validInput; infer_instance

/-- The input-validation error of section 4.1. -/
inductive GridError
  | invalidGrid
deriving DecidableEq

/-- Modelled from the spec: the pipeline entry point null_point_find of the
documented interface. It validates the input first and fails fast with the
validation error, producing no results at all; on well-formed input it
yields the full result set. -/
def nullPointFindE (d : FieldData) (ptol ftol : ℚ) :
    Except GridError (NullPoint → Prop) :=
  if validInput d then Except.ok (Results d ptol ftol) else Except.error GridError.invalidGrid

/-- Modelled from the spec: the uniform Grid Sampler of section 4.1 backing
uniform_null_point_find, sampling an analytic field on a uniform lattice
x0 + h*i, with the number of samples per axis chosen to cover the range. -/
def uniformField (f : ℚ → ℚ → ℚ → Vec3) (fx0 fy0 fz0 h : ℚ) (nx ny nz : ℕ) :
    FieldData where
  xs := (List.range nx).map (fun n : ℕ => fx0 + h * (n : ℚ))
  ys := (List.range ny).map (fun n : ℕ => fy0 + h * (n : ℚ))
  zs := (List.range nz).map (fun n : ℕ => fz0 + h * (n : ℚ))
  u := (List.range nx).map (fun a : ℕ =>
    (List.range ny).map (fun b : ℕ =>
      (List.range nz).map (fun c : ℕ =>
        (f (fx0 + h * (a : ℚ)) (fy0 + h * (b : ℚ)) (fz0 + h * (c : ℚ))).x)))
  v := (List.range nx).map (fun a : ℕ =>
    (List.range ny).map (fun b : ℕ =>
      (List.range nz).map (fun c : ℕ =>
        (f (fx0 + h * (a : ℚ)) (fy0 + h * (b : ℚ)) (fz0 + h * (c : ℚ))).y)))
  w := (List.range nx).map (fun a : ℕ =>
    (List.range ny).map (fun b : ℕ =>
      (List.range nz).map (fun c : ℕ =>
        (f (fx0 + h * (a : ℚ)) (fy0 + h * (b : ℚ)) (fz0 + h * (c : ℚ))).z)))

/-- The analytic model field of the uniform-grid notebook example. -/
def magnetic_field (mx my mz : ℚ) : Vec3 :=
  ⟨(my - 3/2) * (mz - 3/2), (mx - 3/2) * (mz - 3/2), (mx - 3/2) * (my - 3/2)⟩

/-- The uniform-grid example input: magnetic_field sampled on the cube with
low corner 1 and spacing 3/100, 34 samples per axis covering the range. -/
def d2 : FieldData := uniformField magnetic_field 1 1 1 (3/100) 34 34 34

/-- The convergence threshold used for the notebook runs (the documented
interface default). -/
def tolC : ℚ := 1 / 10 ^ 10

/-- The cell of d2 containing the null of the model field, in explicit form. -/
def cdE : CellData where
  u := fun _ b2 b3 => 9/10^4 * (bq b2 - 2/3) * (bq b3 - 2/3)
  v := fun b1 _ b3 => 9/10^4 * (bq b1 - 2/3) * (bq b3 - 2/3)
  w := fun b1 b2 _ => 9/10^4 * (bq b1 - 2/3) * (bq b2 - 2/3)
  x0 := 37/25
  hx := 3/100
  y0 := 37/25
  hy := 3/100
  z0 := 37/25
  hz := 3/100

/-- Offset from the null of the k-th Newton iterate on cdE. -/
def eC2 (k : ℕ) : ℚ := 1 / (6 * 2 ^ k)

/-- The k-th Newton iterate on cdE, in cell-local coordinates. -/
def pC2 (k : ℕ) : Vec3 := ⟨2/3 - eC2 k, 2/3 - eC2 k, 2/3 - eC2 k⟩

/-- The off-diagonal entry of the physical Jacobian of cdE at the converged
Newton iterate: -(3/100) * eC2 31. -/
def mC2 : ℚ := -(1 / 429496729600)

/-- The physical Jacobian of cdE at the converged Newton iterate. -/
def jac31 : Mat3 := ⟨0, mC2, mC2, mC2, 0, mC2, mC2, mC2, 0⟩

/-- The arbitrary-grid example input of the notebook: coordinate arrays
x = y = z = [5, 6] and the three given 2x2x2 component arrays. -/
def d3 : FieldData where
  xs := [5, 6]
  ys := [5, 6]
  zs := [5, 6]
  u := [[[-1/2, -1/2], [1/2, 1/2]], [[-1/2, -1/2], [1/2, 1/2]]]
  v := [[[-1/2, 1/2], [-1/2, 1/2]], [[-1/2, 1/2], [-1/2, 1/2]]]
  w := [[[-1/2, -1/2], [-1/2, -1/2]], [[1/2, 1/2], [1/2, 1/2]]]

/-- The single cell of d3. -/
def cd3 : CellData := cellOf d3 0 0 0

/-- A grid whose only cell carries the field (x - 2, y - 1/2, z - 1/2): its
refinement converges to a point outside the cell-local domain. -/
def d5 : FieldData where
  xs := [0, 1]
  ys := [0, 1]
  zs := [0, 1]
  u := [[[-2, -2], [-2, -2]], [[-1, -1], [-1, -1]]]
  v := [[[-1/2, -1/2], [1/2, 1/2]], [[-1/2, -1/2], [1/2, 1/2]]]
  w := [[[-1/2, 1/2], [-1/2, 1/2]], [[-1/2, 1/2], [-1/2, 1/2]]]

/-- The single cell of d5. -/
def cd5 : CellData := cellOf d5 0 0 0

/-- A malformed input: the x coordinate sequence [1, 1] is not strictly
monotonic. -/
def dBad : FieldData where
  xs := [1, 1]
  ys := [0, 1]
  zs := [0, 1]
  u := [[[0, 0], [0, 0]], [[0, 0], [0, 0]]]
  v := [[[0, 0], [0, 0]], [[0, 0], [0, 0]]]
  w := [[[0, 0], [0, 0]], [[0, 0], [0, 0]]]

/-- A cell on which the Newton map has an exact period-two cycle: u and v are
bilinear in x, y and z-independent, w = z - 1/2. From the fixed-seed guess
the refinement converges at the first iteration; restarted from that
converged point the iteration alternates between two points a cell width
apart and exhausts the iteration budget. -/
def cdC7 : CellData where
  u := fun b1 b2 _ =>
    if b1 then (if b2 then 1561/4096 else -2535/4096)
    else (129/4096 : ℚ)
  v := fun b1 b2 _ =>
    if b1 then (if b2 then 959/64 else -1641/64)
    else (if b2 then 1023/64 else -1641/64)
  w := fun _ _ b3 => if b3 then 1/2 else -1/2
  x0 := 0
  hx := 1
  y0 := 0
  hy := 1
  z0 := 0
  hz := 1

/-- The converged output of the first refinement run on cdC7. -/
def pB7 : Vec3 := ⟨5/8, 5/8, 1/2⟩

/-- The far point of the period-two Newton cycle of cdC7. -/
def pQ7 : Vec3 := ⟨13/8, 41/64, 1/2⟩

/-- The cell used for the no-root-but-accepted example of the Reduction Test:
u = x - 1/2, v = x - 1/4, w = x - 1/2 admit no common zero. -/
def cdC1 : CellData where
  u := fun b1 _ _ => if b1 then 1/2 else -1/2
  v := fun b1 _ _ => if b1 then 3/4 else -1/4
  w := fun b1 _ _ => if b1 then 1/2 else -1/2
  x0 := 0
  hx := 1
  y0 := 0
  hy := 1
  z0 := 0
  hz := 1

/-- A Jacobian with the repeated eigenvalue 1 (and the simple eigenvalue 2),
used to exercise the degenerate branch of the Classifier. -/
def M6 : Mat3 := ⟨1, 0, 0, 0, 1, 0, 0, 0, 2⟩

/-- Uniform rescaling of the coordinate axes of a cell by a factor: the
sampled component values are unchanged, every position and edge length is
scaled. -/
def scaleAxes (c : ℚ) (cd : CellData) : CellData :=
  ⟨cd.u, cd.v, cd.w, c * cd.x0, c * cd.hx, c * cd.y0, c * cd.hy, c * cd.z0, c * cd.hz⟩

/-- A cell carrying the linear field (-y + 1/2, x - 1/2, 2z - 1): a spiral
null whose classification changes when one axis is reflected. -/
def cdC8 : CellData where
  u := fun _ b2 _ => if b2 then -1/2 else 1/2
  v := fun b1 _ _ => if b1 then 1/2 else -1/2
  w := fun _ _ b3 => if b3 then 1 else -1
  x0 := 0
  hx := 1
  y0 := 0
  hy := 1
  z0 := 0
  hz := 1

end NullpointSpec

namespace SweptLangmuir

/-- A point of the current trace is a crossing point when it equals zero or
belongs to a point-pair straddling zero. -/
def isCross (cur : List ℚ) (i : ℕ) : Bool :=
  decide (cur.getD i 0 = 0) ||
    (decide (i + 1 < cur.length) && decide (cur.getD i 0 * cur.getD (i + 1) 0 < 0)) ||
    (decide (1 ≤ i) && decide (cur.getD (i - 1) 0 * cur.getD i 0 < 0))

/-- Modelled from the spec: the crossing-point scan of
find_floating_potential (the implementation of
plasmapy.analysis.swept_langmuir is not in the provided material; the
notebook describes the algorithm). The passed current array is scanned for
points that equal zero and point-pairs that straddle zero. -/
def crossings (cur : List ℚ) : List ℕ :=
  (List.range cur.length).filter (fun i => isCross cur i)

/-- Modelled from the spec: grouping of the crossing points into
crossing-islands. A new island is formed when a successive crossing point is
more index steps away from the previous one than the threshold. -/
def groupIslands (thr : ℕ) : List ℕ → List (List ℕ)
  | [] => []
  | [i] => [[i]]
  | i :: j :: rest =>
    match groupIslands thr (j :: rest) with
    | [] => [[i]]
    | isl :: more => if j - i ≤ thr then (i :: isl) :: more else [i] :: isl :: more

/-- Total index span covered by the crossing points, from the first crossing
point to the last. -/
def crossSpan (cross : List ℕ) : ℕ :=
  cross.getLast?.getD 0 - cross.head?.getD 0 + 1

/-- Modelled from the spec: the multiple-island rule of
find_floating_potential. With more than one crossing-island the total span
of all islands is compared against min_points: a larger span makes the
function incapable of identifying the floating potential (numpy.nan,
modelled as none); otherwise the span forms one larger island, overriding
the threshold grouping. -/
def resolveIslands (minPts : ℕ) (cross : List ℕ) : List (List ℕ) → Option (List ℕ)
  | [] => none
  | [isl] => some isl
  | _ :: _ :: _ => if minPts < crossSpan cross then none else some cross

/-- Modelled from the spec: padding of the crossing-island. Each side of the
island slice is padded with the nearest neighbor points until min_points is
satisfied, clamped to the array bounds. -/
def padSlice (n minPts a b : ℕ) : ℕ × ℕ :=
  if minPts ≤ b + 1 - a then (a, b)
  else
    let need := minPts - (b + 1 - a)
    let la := min a (need / 2)
    let rb := min (n - 1 - b) (need - la)
    let la2 := min (a - la) ((need - la) - rb)
    (a - la - la2, b + rb)

/-- Sum of a rational-valued function over the index slice [a, b]. -/
def sliceSum (f : ℕ → ℚ) (a b : ℕ) : ℚ :=
  ((List.range (b + 1 - a)).map (fun t => f (a + t))).sum

/-- The fitted function returned with the floating potential, as slope and
intercept of the linear fit. -/
structure VFExtras where
  slope : ℚ
  intercept : ℚ

/-- The fitted function as a callable: current as a function of voltage. -/
def VFExtras.fitted_func (e : VFExtras) (vlt : ℚ) : ℚ := e.slope * vlt + e.intercept

/-- Modelled from the spec: the least-squares linear fit (fit_type linear,
scipy.stats.linregress) over the points of the padded island slice. Returns
none when the fit is degenerate or the fitted line is horizontal, in which
case no root exists and the function reports numpy.nan. -/
def fitLinear (volt cur : List ℚ) (a b : ℕ) : Option VFExtras :=
  let n : ℚ := ((b : ℚ) + 1 - a)
  let sx := sliceSum (fun i => volt.getD i 0) a b
  let sy := sliceSum (fun i => cur.getD i 0) a b
  let sxy := sliceSum (fun i => volt.getD i 0 * cur.getD i 0) a b
  let sxx := sliceSum (fun i => volt.getD i 0 ^ 2) a b
  let den := n * sxx - sx ^ 2
  if den = 0 then none
  else
    let m := (n * sxy - sx * sy) / den
    if m = 0 then none else some ⟨m, (sy - m * sx) / n⟩

/-- Modelled from the spec: the fitting stage applied to a resolved island:
pad the island slice to min_points, fit, and solve the fitted function for
its root, which is the returned floating potential. -/
def fitStage (volt cur : List ℚ) (minPts : ℕ) (isl : List ℕ) : Option (ℚ × VFExtras) :=
  let ab := padSlice cur.length minPts (isl.head?.getD 0) (isl.getLast?.getD 0)
  match fitLinear volt cur ab.1 ab.2 with
  | none => none
  | some e => some (-e.intercept / e.slope, e)

/-- Modelled from the spec: find_floating_potential with the linear fit type:
scan for crossing points, group them into islands under the threshold,
resolve multiple islands against min_points, then fit the resolved island
and solve the fit for the floating potential. none models the numpy.nan
outcome. -/
def find_floating_potential (volt cur : List ℚ) (thr minPts : ℕ) :
    Option (ℚ × VFExtras) :=
  match resolveIslands minPts (crossings cur) (groupIslands thr (crossings cur)) with
  | none => none
  | some isl => fitStage volt cur minPts isl

/-- Concrete trace used to exercise the single-island fitting path. -/
def curW : List ℚ := [-2, -1, 1, 2]

/-- Concrete voltage array for the single-island fitting path. -/
def voltW : List ℚ := [0, 1, 2, 3]

/-- Concrete trace with two crossing-islands of total span 7. -/
def curW9 : List ℚ := [-1, 1, 1, 1, 1, 1, -1]

/-- Concrete voltage array for the two-island trace. -/
def voltW9 : List ℚ := [0, 1, 2, 3, 4, 5, 6]

end SweptLangmuir

namespace NullpointSpec

theorem getD_range_map {α : Type} (g : ℕ → α) (n i : ℕ) (d : α) (h : i < n) :
    ((List.range n).map g).getD i d = g i := by
  rw [List.getD_eq_getElem?_getD, List.getElem?_map, List.getElem?_range h]
  rfl

theorem nrLoop_zero (cd : CellData) (ptol ftol : ℚ) (p : Vec3) :
    nrLoop cd ptol ftol 0 p = none := rfl

theorem nrLoop_succ (cd : CellData) (ptol ftol : ℚ) (n : ℕ) (p : Vec3) :
    nrLoop cd ptol ftol (n + 1) p =
      (if maxAbs (Vec3.sub (newtonStep cd p) p) < ptol ∧
          maxAbs (fieldAt cd (newtonStep cd p)) < ftol then some (newtonStep cd p)
        else nrLoop cd ptol ftol n (newtonStep cd p)) := rfl

theorem trilin_neg_corners (c : Corners) (p : Vec3) :
    trilin (fun b1 b2 b3 => -(c b1 b2 b3)) p = -trilin c p := by
  simp only [trilin, a0, aX, aY, aZ, aXY, aYZ, aZX, aXYZ]
  ring

theorem trilin_pos (c : Corners) (p : Vec3) (hc : allPos c) (hp : inUnitCube p) :
    0 < trilin c p := by
  obtain ⟨⟨hx0, hx1⟩, ⟨hy0, hy1⟩, ⟨hz0, hz1⟩⟩ := hp
  set m := min (min (min (c false false false) (c false false true))
      (min (c false true false) (c false true true)))
    (min (min (c true false false) (c true false true))
      (min (c true true false) (c true true true))) with hm
  have hmpos : 0 < m := by
    simp only [hm, lt_min_iff]
    exact ⟨⟨⟨hc _ _ _, hc _ _ _⟩, hc _ _ _, hc _ _ _⟩, ⟨hc _ _ _, hc _ _ _⟩, hc _ _ _, hc _ _ _⟩
  have hle : ∀ b1 b2 b3, m ≤ c b1 b2 b3 := by
    intro b1 b2 b3
    cases b1 <;> cases b2 <;> cases b3 <;> simp [hm, min_le_iff]
  have expand : trilin c p - m =
      (c false false false - m) * ((1 - p.x) * (1 - p.y) * (1 - p.z)) +
        (c false false true - m) * ((1 - p.x) * (1 - p.y) * p.z) +
        (c false true false - m) * ((1 - p.x) * p.y * (1 - p.z)) +
        (c false true true - m) * ((1 - p.x) * p.y * p.z) +
        (c true false false - m) * (p.x * (1 - p.y) * (1 - p.z)) +
        (c true false true - m) * (p.x * (1 - p.y) * p.z) +
        (c true true false - m) * (p.x * p.y * (1 - p.z)) +
        (c true true true - m) * (p.x * p.y * p.z) := by
    simp only [trilin, a0, aX, aY, aZ, aXY, aYZ, aZX, aXYZ]
    ring
  have t1 : (0:ℚ) ≤ (c false false false - m) * ((1 - p.x) * (1 - p.y) * (1 - p.z)) :=
    mul_nonneg (sub_nonneg.mpr (hle _ _ _))
      (mul_nonneg (mul_nonneg (by linarith) (by linarith)) (by linarith))
  have t2 : (0:ℚ) ≤ (c false false true - m) * ((1 - p.x) * (1 - p.y) * p.z) :=
    mul_nonneg (sub_nonneg.mpr (hle _ _ _))
      (mul_nonneg (mul_nonneg (by linarith) (by linarith)) (by linarith))
  have t3 : (0:ℚ) ≤ (c false true false - m) * ((1 - p.x) * p.y * (1 - p.z)) :=
    mul_nonneg (sub_nonneg.mpr (hle _ _ _))
      (mul_nonneg (mul_nonneg (by linarith) (by linarith)) (by linarith))
  have t4 : (0:ℚ) ≤ (c false true true - m) * ((1 - p.x) * p.y * p.z) :=
    mul_nonneg (sub_nonneg.mpr (hle _ _ _))
      (mul_nonneg (mul_nonneg (by linarith) (by linarith)) (by linarith))
  have t5 : (0:ℚ) ≤ (c true false false - m) * (p.x * (1 - p.y) * (1 - p.z)) :=
    mul_nonneg (sub_nonneg.mpr (hle _ _ _))
      (mul_nonneg (mul_nonneg (by linarith) (by linarith)) (by linarith))
  have t6 : (0:ℚ) ≤ (c true false true - m) * (p.x * (1 - p.y) * p.z) :=
    mul_nonneg (sub_nonneg.mpr (hle _ _ _))
      (mul_nonneg (mul_nonneg (by linarith) (by linarith)) (by linarith))
  have t7 : (0:ℚ) ≤ (c true true false - m) * (p.x * p.y * (1 - p.z)) :=
    mul_nonneg (sub_nonneg.mpr (hle _ _ _))
      (mul_nonneg (mul_nonneg (by linarith) (by linarith)) (by linarith))
  have t8 : (0:ℚ) ≤ (c true true true - m) * (p.x * p.y * p.z) :=
    mul_nonneg (sub_nonneg.mpr (hle _ _ _))
      (mul_nonneg (mul_nonneg (by linarith) (by linarith)) (by linarith))
  linarith

theorem trilin_neg (c : Corners) (p : Vec3) (hc : allNeg c) (hp : inUnitCube p) :
    trilin c p < 0 := by
  have h := trilin_pos (fun b1 b2 b3 => -(c b1 b2 b3)) p
    (fun b1 b2 b3 => by simpa using hc b1 b2 b3) hp
  rw [trilin_neg_corners] at h
  linarith

theorem reduction_no_false_negative (cd : CellData) (p : Vec3) (hp : inUnitCube p)
    (hroot : fieldAt cd p = ⟨0, 0, 0⟩) : ¬rejected cd := by
  have hcomp : trilin cd.u p = 0 ∧ trilin cd.v p = 0 ∧ trilin cd.w p = 0 := by
    simpa [fieldAt, Vec3.mk.injEq] using hroot
  intro hrej
  rcases hrej with h | h | h <;> rcases h with h | h
  · exact absurd hcomp.1 (ne_of_gt (trilin_pos cd.u p h hp))
  · exact absurd hcomp.1 (ne_of_lt (trilin_neg cd.u p h hp))
  · exact absurd hcomp.2.1 (ne_of_gt (trilin_pos cd.v p h hp))
  · exact absurd hcomp.2.1 (ne_of_lt (trilin_neg cd.v p h hp))
  · exact absurd hcomp.2.2 (ne_of_gt (trilin_pos cd.w p h hp))
  · exact absurd hcomp.2.2 (ne_of_lt (trilin_neg cd.w p h hp))

theorem cdC1_u_val (p : Vec3) : trilin cdC1.u p = p.x - 1/2 := by
  simp only [trilin, a0, aX, aY, aZ, aXY, aYZ, aZX, aXYZ, cdC1]
  norm_num
  ring

theorem cdC1_v_val (p : Vec3) : trilin cdC1.v p = p.x - 1/4 := by
  simp only [trilin, a0, aX, aY, aZ, aXY, aYZ, aZX, aXYZ, cdC1]
  norm_num
  ring

/-- C1: the Reduction Test rejects a cell exactly when some one of the three
components has all 8 corner values of one strict sign; a corner value of
zero prevents the same-sign condition; a cell containing a root of the
trilinear field is never rejected; and an accepted cell need not contain a
root. -/
theorem C1_reduction_characterization :
    (∀ cd : CellData, rejected cd ↔
        ((allPos cd.u ∨ allNeg cd.u) ∨ (allPos cd.v ∨ allNeg cd.v) ∨
          (allPos cd.w ∨ allNeg cd.w))) ∧
    (∀ (c : Corners) (b1 b2 b3 : Bool), c b1 b2 b3 = 0 → ¬compSameSign c) ∧
    (∀ (cd : CellData) (p : Vec3), inUnitCube p → fieldAt cd p = ⟨0, 0, 0⟩ →
      ¬rejected cd) ∧
    (¬rejected cdC1 ∧ ∀ p : Vec3, inUnitCube p → fieldAt cdC1 p ≠ ⟨0, 0, 0⟩) := by
  refine ⟨fun cd => Iff.rfl, ?_, reduction_no_false_negative, ?_, ?_⟩
  · intro c b1 b2 b3 h0 hss
    rcases hss with h | h
    · exact absurd (h b1 b2 b3) (by rw [h0]; exact lt_irrefl 0)
    · exact absurd (h b1 b2 b3) (by rw [h0]; exact lt_irrefl 0)
  · intro hrej
    rcases hrej with h | h | h <;> rcases h with h | h
    · have := h false false false; norm_num [cdC1] at this
    · have := h true false false; norm_num [cdC1] at this
    · have := h false false false; norm_num [cdC1] at this
    · have := h true false false; norm_num [cdC1] at this
    · have := h false false false; norm_num [cdC1] at this
    · have := h true false false; norm_num [cdC1] at this
  · intro p hp heq
    have hcomp : trilin cdC1.u p = 0 ∧ trilin cdC1.v p = 0 ∧ trilin cdC1.w p = 0 := by
      simpa [fieldAt, Vec3.mk.injEq] using heq
    have h1 := hcomp.1
    have h2 := hcomp.2.1
    rw [cdC1_u_val] at h1
    rw [cdC1_v_val] at h2
    linarith

/-- C1 witness: the no-false-negative part applied at the concrete cell cdC1
with its sign structure checked by evaluation. -/
theorem C1_reduction_witness :
    inUnitCube (⟨1/2, 1/2, 1/2⟩ : Vec3) ∧ ¬rejected cdC1 := by
  constructor
  · norm_num [inUnitCube]
  · exact C1_reduction_characterization.2.2.2.1

theorem pos_scale_eq (a b : ℚ) (ha : 0 < a) : a * b = 0 ↔ b = 0 := by
  constructor
  · intro h
    rcases mul_eq_zero.mp h with h' | h'
    · exact absurd h' (ne_of_gt ha)
    · exact h'
  · intro h
    rw [h, mul_zero]

theorem pos_scale_pos (a b : ℚ) (ha : 0 < a) : 0 < a * b ↔ 0 < b := by
  constructor
  · intro h
    by_contra hn
    push_neg at hn
    nlinarith [mul_nonneg ha.le (neg_nonneg.mpr hn)]
  · exact fun h => mul_pos ha h

theorem pos_scale_lt (a b : ℚ) (ha : 0 < a) : a * b < 0 ↔ b < 0 := by
  constructor
  · intro h
    by_contra hn
    push_neg at hn
    nlinarith [mul_nonneg ha.le hn]
  · exact fun h => mul_neg_of_pos_of_neg ha h

theorem traceM_smul (c : ℚ) (M : Mat3) : traceM (smulM c M) = c * traceM M := by
  simp only [traceM, smulM]
  ring

theorem minorSum_smul (c : ℚ) (M : Mat3) : minorSum (smulM c M) = c ^ 2 * minorSum M := by
  simp only [minorSum, smulM]
  ring

theorem det3_smul (c : ℚ) (M : Mat3) : det3 (smulM c M) = c ^ 3 * det3 M := by
  simp only [det3, smulM]
  ring

theorem discrim_scale (c T S D : ℚ) :
    discrimCubic (c * T) (c ^ 2 * S) (c ^ 3 * D) = c ^ 6 * discrimCubic T S D := by
  simp only [discrimCubic]
  ring

theorem classify_smul (c : ℚ) (hc : 0 < c) (M : Mat3) :
    classify (smulM c M) = classify M := by
  have hc3 : (0:ℚ) < c ^ 3 := by positivity
  have hc6 : (0:ℚ) < c ^ 6 := by positivity
  unfold classify
  rw [traceM_smul, minorSum_smul, det3_smul, discrim_scale]
  simp only [pos_scale_eq _ _ hc3, pos_scale_eq _ _ hc6, pos_scale_lt _ _ hc6,
    pos_scale_pos _ _ hc, pos_scale_pos _ _ (show (0:ℚ) < c ^ 2 by positivity),
    pos_scale_pos _ _ hc3, pos_scale_lt _ _ hc, pos_scale_lt _ _ hc3]

theorem jacPhys_scale (c : ℚ) (hc : c ≠ 0) (cd : CellData) (p : Vec3) :
    jacPhys (scaleAxes c cd) p = smulM (1 / c) (jacPhys cd p) := by
  simp only [jacPhys, scaleAxes, smulM, Mat3.mk.injEq]
  refine ⟨?_, ?_, ?_, ?_, ?_, ?_, ?_, ?_, ?_⟩ <;> (field_simp; try ring)

/-- C6: a Jacobian with a repeated real eigenvalue (a common root of the
characteristic polynomial and its derivative) or a zero eigenvalue is still
classified, tagged improper/degenerate, and is assigned neither of the
radial categories nor the spiral category. -/
theorem C6_degenerate_flagged (M : Mat3)
    (h : (∃ r : ℚ, charPoly M r = 0 ∧ charPolyDeriv M r = 0) ∨ charPoly M 0 = 0) :
    classify M = NullClass.improperDegenerate ∧
      classify M ≠ NullClass.positiveRadial ∧
      classify M ≠ NullClass.negativeRadial ∧
      classify M ≠ NullClass.spiral := by
  have hmain : classify M = NullClass.improperDegenerate := by
    rcases h with ⟨r, h1, h2⟩ | h0
    · have hS : minorSum M = 2 * traceM M * r - 3 * r ^ 2 := by
        unfold charPolyDeriv at h2
        linarith
      have hD : det3 M = traceM M * r ^ 2 - 2 * r ^ 3 := by
        have hstep : det3 M = r ^ 3 - traceM M * r ^ 2 +
            (2 * traceM M * r - 3 * r ^ 2) * r := by
          rw [← hS]
          unfold charPoly at h1
          linarith
        rw [hstep]
        ring
      have hΔ : discrimCubic (traceM M) (minorSum M) (det3 M) = 0 := by
        rw [hS, hD]
        unfold discrimCubic
        ring
      unfold classify
      rw [if_pos (Or.inr hΔ)]
    · have hD : det3 M = 0 := by
        unfold charPoly at h0
        linarith [h0]
      unfold classify
      rw [if_pos (Or.inl hD)]
  refine ⟨hmain, ?_, ?_, ?_⟩ <;> rw [hmain] <;> simp

/-- C6 witness: the degenerate rule applied at the concrete Jacobian M6 with
eigenvalues 1, 1, 2, whose repeated eigenvalue 1 is checked by evaluation. -/
theorem C6_witness :
    charPoly M6 1 = 0 ∧ charPolyDeriv M6 1 = 0 ∧
      classify M6 = NullClass.improperDegenerate := by
  have h1 : charPoly M6 1 = 0 := by norm_num [charPoly, traceM, minorSum, det3, M6]
  have h2 : charPolyDeriv M6 1 = 0 := by norm_num [charPolyDeriv, traceM, minorSum, M6]
  exact ⟨h1, h2, (C6_degenerate_flagged M6 (Or.inl ⟨1, h1, h2⟩)).1⟩

/-- C8: the classification of a located null is invariant under uniform
rescaling of all three coordinate axes by a positive factor, while
reflecting a single axis need not preserve it: the cell cdC8 carries a
spiral null whose reflected Jacobian is no longer classified spiral. -/
theorem C8_classification_invariance :
    (∀ (cd : CellData) (p : Vec3) (c : ℚ), 0 < c →
      classify (jacPhys (scaleAxes c cd) p) = classify (jacPhys cd p)) ∧
    (classify (jacPhys cdC8 initialGuess) = NullClass.spiral ∧
      classify (reflectX (jacPhys cdC8 initialGuess)) ≠ NullClass.spiral) := by
  constructor
  · intro cd p c hc
    rw [jacPhys_scale c (ne_of_gt hc), classify_smul (1 / c) (by positivity)]
  · constructor
    · norm_num [classify, jacPhys, cdC8, dX, dY, dZ, aX, aY, aZ, aXY, aYZ, aZX, aXYZ,
        det3, traceM, minorSum, discrimCubic, initialGuess]
    · norm_num [classify, reflectX, jacPhys, cdC8, dX, dY, dZ, aX, aY, aZ, aXY, aYZ,
        aZX, aXYZ, det3, traceM, minorSum, discrimCubic, initialGuess]
      decide

/-- C8 witness: the rescaling-invariance part applied at the concrete cell
cdC8 with the concrete factor 2. -/
theorem C8_witness :
    (0:ℚ) < 2 ∧ classify (jacPhys (scaleAxes 2 cdC8) initialGuess) =
      classify (jacPhys cdC8 initialGuess) :=
  ⟨by norm_num, C8_classification_invariance.1 cdC8 initialGuess 2 (by norm_num)⟩

/-- C4: malformed input (a non-monotonic coordinate sequence or a shape
mismatch) makes the pipeline fail fast with the input-validation error and
produce no results at all, while well-formed input is never rejected and
yields the full result set. -/
theorem C4_validation (d : FieldData) (ptol ftol : ℚ) :
    (¬validInput d → nullPointFindE d ptol ftol = Except.error GridError.invalidGrid) ∧
    (validInput d → nullPointFindE d ptol ftol = Except.ok (Results d ptol ftol)) := by
  constructor
  · intro h
    unfold nullPointFindE
    rw [if_neg h]
  · intro h
    unfold nullPointFindE
    rw [if_pos h]

/-- C4 witness: the fail-fast direction applied at the concrete malformed
input dBad and the success direction at the concrete well-formed input d3. -/
theorem C4_witness :
    ¬validInput dBad ∧ nullPointFindE dBad 1 1 = Except.error GridError.invalidGrid ∧
      validInput d3 ∧ nullPointFindE d3 1 1 = Except.ok (Results d3 1 1) := by
  have hbad : ¬validInput dBad := by
    intro h
    rcases h.1 with hinc | hdec
    · simp [strictIncr, dBad, List.chain'_cons] at hinc
    · simp [strictDecr, dBad, List.chain'_cons] at hdec
  have hgood : validInput d3 := by
    refine ⟨Or.inl ?_, Or.inl ?_, Or.inl ?_, ?_, ?_, ?_⟩
    · simp [strictIncr, d3, List.chain'_cons]
      norm_num
    · simp [strictIncr, d3, List.chain'_cons]
      norm_num
    · simp [strictIncr, d3, List.chain'_cons]
      norm_num
    · simp [arrShapeOK, d3]
    · simp [arrShapeOK, d3]
    · simp [arrShapeOK, d3]
  exact ⟨hbad, (C4_validation dBad 1 1).1 hbad, hgood, (C4_validation d3 1 1).2 hgood⟩

/-- C5: when Root Refinement of a cell fails to converge within the
iteration budget, or converges to a point outside the cell-local domain,
the cell contributes no null point to the result set, the results of all
other cells are exactly unaffected, and the pipeline still succeeds without
raising any error on well-formed input. -/
theorem C5_nonconvergence_drops_cell (d : FieldData) (ptol ftol : ℚ) (i j k : ℕ)
    (h : nrLoop (cellOf d i j k) ptol ftol MAXITER initialGuess = none ∨
      ∃ p, nrLoop (cellOf d i j k) ptol ftol MAXITER initialGuess = some p ∧
        ¬inUnitCube p) :
    refine (cellOf d i j k) ptol ftol = none ∧
      (∀ np, Results d ptol ftol np → np.cellId ≠ (i, j, k)) ∧
      (∀ np, ResultsExcept d ptol ftol (i, j, k) np ↔ Results d ptol ftol np) ∧
      (validInput d → nullPointFindE d ptol ftol = Except.ok (Results d ptol ftol)) := by
  have href : refine (cellOf d i j k) ptol ftol = none := by
    unfold refine refineFrom
    rcases h with h | ⟨p, hp, hcube⟩
    · rw [h]
    · rw [hp]
      simp only
      rw [if_neg hcube]
  have key : ∀ (i' j' k' : ℕ) (p : Vec3),
      refine (cellOf d i' j' k') ptol ftol = some p → (i', j', k') ≠ (i, j, k) := by
    intro i' j' k' p hr hcell
    have h1 : i' = i := congrArg (fun t => t.1) hcell
    have h2 : j' = j := congrArg (fun t => t.2.1) hcell
    have h3 : k' = k := congrArg (fun t => t.2.2) hcell
    subst h1
    subst h2
    subst h3
    rw [href] at hr
    exact Option.noConfusion hr
  refine ⟨href, ?_, ?_, ?_⟩
  · rintro np ⟨i', j', k', p, hi, hj, hk, hrej, htri, hrefine, hnp⟩ hcell
    subst hnp
    exact key i' j' k' p hrefine hcell
  · intro np
    constructor
    · rintro ⟨i', j', k', p, hi, hj, hk, hne, hrej, htri, hrefine, hnp⟩
      exact ⟨i', j', k', p, hi, hj, hk, hrej, htri, hrefine, hnp⟩
    · rintro ⟨i', j', k', p, hi, hj, hk, hrej, htri, hrefine, hnp⟩
      exact ⟨i', j', k', p, hi, hj, hk, key i' j' k' p hrefine, hrej, htri, hrefine, hnp⟩
  · intro hv
    unfold nullPointFindE
    rw [if_pos hv]

theorem cd5_jac (p : Vec3) : jacLocal cd5 p = ⟨1, 0, 0, 0, 1, 0, 0, 0, 1⟩ := by
  simp only [jacLocal, dX, dY, dZ, aX, aY, aZ, aXY, aYZ, aZX, aXYZ, cd5, cellOf,
    arr3Get, d5, Mat3.mk.injEq]
  norm_num

theorem cd5_field (p : Vec3) :
    fieldAt cd5 p = ⟨p.x - 2, p.y - 1/2, p.z - 1/2⟩ := by
  simp only [fieldAt, trilin, a0, aX, aY, aZ, aXY, aYZ, aZX, aXYZ, cd5, cellOf,
    arr3Get, d5, Vec3.mk.injEq]
  norm_num
  refine ⟨by ring, by ring, by ring⟩

theorem cd5_step (p : Vec3) : newtonStep cd5 p = ⟨2, 1/2, 1/2⟩ := by
  simp only [newtonStep, cd5_jac, cd5_field]
  rw [if_neg (by norm_num [det3])]
  simp only [solve3, det3, Vec3.mk.injEq]
  refine ⟨by ring, by ring, by ring⟩

theorem cd5_loop :
    nrLoop cd5 tolC tolC MAXITER initialGuess = some ⟨2, 1/2, 1/2⟩ := by
  have h500 : MAXITER = 499 + 1 := rfl
  rw [h500, nrLoop_succ, cd5_step]
  rw [if_neg (by norm_num [maxAbs, Vec3.sub, initialGuess, cd5_field, tolC, abs_of_pos,
    abs_of_nonneg])]
  have h499 : (499 : ℕ) = 498 + 1 := rfl
  rw [h499, nrLoop_succ, cd5_step]
  rw [if_pos (by norm_num [maxAbs, Vec3.sub, cd5_field, tolC])]

/-- C5 witness: the drop rule applied at the concrete cell of d5, whose
refinement converges to the out-of-domain point (2, 1/2, 1/2). -/
theorem C5_witness :
    refine (cellOf d5 0 0 0) tolC tolC = none ∧
      ∀ np, Results d5 tolC tolC np → np.cellId ≠ (0, 0, 0) := by
  have hyp : nrLoop (cellOf d5 0 0 0) tolC tolC MAXITER initialGuess = none ∨
      ∃ p, nrLoop (cellOf d5 0 0 0) tolC tolC MAXITER initialGuess = some p ∧
        ¬inUnitCube p :=
    Or.inr ⟨⟨2, 1/2, 1/2⟩, cd5_loop, by norm_num [inUnitCube]⟩
  have h := C5_nonconvergence_drops_cell d5 tolC tolC 0 0 0 hyp
  exact ⟨h.1, h.2.1⟩

theorem cd3_field (p : Vec3) :
    fieldAt cd3 p = ⟨p.y - 1/2, p.z - 1/2, p.x - 1/2⟩ := by
  simp only [fieldAt, trilin, a0, aX, aY, aZ, aXY, aYZ, aZX, aXYZ, cd3, cellOf,
    arr3Get, d3, Vec3.mk.injEq]
  norm_num
  refine ⟨by ring, by ring, by ring⟩

theorem cd3_jac (p : Vec3) : jacLocal cd3 p = ⟨0, 1, 0, 0, 0, 1, 1, 0, 0⟩ := by
  simp only [jacLocal, dX, dY, dZ, aX, aY, aZ, aXY, aYZ, aZX, aXYZ, cd3, cellOf,
    arr3Get, d3, Mat3.mk.injEq]
  norm_num

theorem cd3_step (p : Vec3) : newtonStep cd3 p = ⟨1/2, 1/2, 1/2⟩ := by
  simp only [newtonStep, cd3_jac, cd3_field]
  rw [if_neg (by norm_num [det3])]
  simp only [solve3, det3, Vec3.mk.injEq]
  refine ⟨by ring, by ring, by ring⟩

theorem cd3_loop :
    nrLoop cd3 tolC tolC MAXITER initialGuess = some ⟨1/2, 1/2, 1/2⟩ := by
  have h500 : MAXITER = 499 + 1 := rfl
  rw [h500, nrLoop_succ, cd3_step]
  rw [if_pos (by norm_num [maxAbs, Vec3.sub, initialGuess, cd3_field, tolC])]

theorem cd3_refine : refine cd3 tolC tolC = some ⟨1/2, 1/2, 1/2⟩ := by
  unfold refine refineFrom
  rw [cd3_loop]
  simp only
  rw [if_pos (by norm_num [inUnitCube])]

theorem cd3_not_rejected : ¬rejected cd3 := by
  intro hrej
  rcases hrej with h | h | h <;> rcases h with h | h
  · have := h false false false
    norm_num [cd3, cellOf, arr3Get, d3] at this
  · have := h false true false
    norm_num [cd3, cellOf, arr3Get, d3] at this
  · have := h false false false
    norm_num [cd3, cellOf, arr3Get, d3] at this
  · have := h false false true
    norm_num [cd3, cellOf, arr3Get, d3] at this
  · have := h false false false
    norm_num [cd3, cellOf, arr3Get, d3] at this
  · have := h true false false
    norm_num [cd3, cellOf, arr3Get, d3] at this

theorem cd3_jacPhys :
    jacPhys cd3 ⟨1/2, 1/2, 1/2⟩ = ⟨0, 1, 0, 0, 0, 1, 1, 0, 0⟩ := by
  simp only [jacPhys, dX, dY, dZ, aX, aY, aZ, aXY, aYZ, aZX, aXYZ, cd3, cellOf,
    arr3Get, coordX, coordY, coordZ, d3, Mat3.mk.injEq]
  norm_num

theorem cd3_classify : classify (jacPhys cd3 ⟨1/2, 1/2, 1/2⟩) = NullClass.spiral := by
  rw [cd3_jacPhys]
  norm_num [classify, det3, traceM, minorSum, discrimCubic]

/-- C3: for the arbitrary-grid notebook input with x = y = z = [5, 6] and
the given 2x2x2 component arrays, the result set contains a null point at
(5.5, 5.5, 5.5) classified as a spiral null. -/
theorem C3_arbitrary_grid_spiral :
    ∃ np, Results d3 tolC tolC np ∧
      maxAbs (Vec3.sub np.loc ⟨11/2, 11/2, 11/2⟩) < 1/10^6 ∧
      np.classification = NullClass.spiral := by
  refine ⟨⟨physLoc (cellOf d3 0 0 0) ⟨1/2, 1/2, 1/2⟩,
      classify (jacPhys (cellOf d3 0 0 0) ⟨1/2, 1/2, 1/2⟩), (0, 0, 0)⟩,
    ⟨0, 0, 0, ⟨1/2, 1/2, 1/2⟩, ?_, ?_, ?_, ?_, ?_, ?_, rfl⟩, ?_, ?_⟩
  · norm_num [d3]
  · norm_num [d3]
  · norm_num [d3]
  · exact cd3_not_rejected
  · refine ⟨⟨1/2, 1/2, 1/2⟩, by norm_num [inUnitCube], ?_⟩
    show fieldAt cd3 ⟨1/2, 1/2, 1/2⟩ = ⟨0, 0, 0⟩
    rw [cd3_field]
    norm_num
  · exact cd3_refine
  · show maxAbs (Vec3.sub (physLoc cd3 ⟨1/2, 1/2, 1/2⟩) ⟨11/2, 11/2, 11/2⟩) < 1/10^6
    norm_num [physLoc, cd3, cellOf, coordX, coordY, coordZ, d3, maxAbs, Vec3.sub]
  · exact cd3_classify

theorem Vec3.ext' (a b : Vec3) (hx : a.x = b.x) (hy : a.y = b.y) (hz : a.z = b.z) :
    a = b := by
  cases a
  cases b
  simp only [Vec3.mk.injEq]
  exact ⟨hx, hy, hz⟩

theorem solve3_spec (M : Mat3) (b d : Vec3) (h : det3 M ≠ 0)
    (h1 : M.m11 * d.x + M.m12 * d.y + M.m13 * d.z = b.x)
    (h2 : M.m21 * d.x + M.m22 * d.y + M.m23 * d.z = b.y)
    (h3 : M.m31 * d.x + M.m32 * d.y + M.m33 * d.z = b.z) :
    solve3 M b = d := by
  apply Vec3.ext' <;> simp only [solve3] <;> rw [div_eq_iff h] <;> simp only [det3] <;>
    rw [← h1, ← h2, ← h3] <;> ring

theorem newtonStep_spec (cd : CellData) (p q : Vec3) (M : Mat3) (Fv d : Vec3)
    (hjac : jacLocal cd p = M) (hfield : fieldAt cd p = Fv) (hdet : det3 M ≠ 0)
    (hs1 : M.m11 * d.x + M.m12 * d.y + M.m13 * d.z = -Fv.x)
    (hs2 : M.m21 * d.x + M.m22 * d.y + M.m23 * d.z = -Fv.y)
    (hs3 : M.m31 * d.x + M.m32 * d.y + M.m33 * d.z = -Fv.z)
    (hq : q = ⟨p.x + d.x, p.y + d.y, p.z + d.z⟩) :
    newtonStep cd p = q := by
  have hs : solve3 M ⟨-Fv.x, -Fv.y, -Fv.z⟩ = d :=
    solve3_spec M ⟨-Fv.x, -Fv.y, -Fv.z⟩ d hdet hs1 hs2 hs3
  simp only [newtonStep]
  rw [hjac, hfield, if_neg hdet]
  rw [hs, hq]

theorem c7_jacA : jacLocal cdC7 initialGuess =
    ⟨-77/512, 1/2, 0, -1/2, 329/8, 0, 0, 0, 1⟩ := by
  simp only [jacLocal, dX, dY, dZ, aX, aY, aZ, aXY, aYZ, aZX, aXYZ, cdC7,
    initialGuess, Mat3.mk.injEq]
  norm_num

theorem c7_fieldA : fieldAt cdC7 initialGuess = ⟨-179/4096, -325/64, 0⟩ := by
  simp only [fieldAt, trilin, a0, aX, aY, aZ, aXY, aYZ, aZX, aXYZ, cdC7,
    initialGuess, Vec3.mk.injEq]
  norm_num

theorem c7_jacB : jacLocal cdC7 pB7 = ⟨-13/512, 5/8, 0, -5/8, 41, 0, 0, 0, 1⟩ := by
  simp only [jacLocal, dX, dY, dZ, aX, aY, aZ, aXY, aYZ, aZX, aXYZ, cdC7, pB7,
    Mat3.mk.injEq]
  norm_num

theorem c7_fieldB : fieldAt cdC7 pB7 = ⟨1/64, -(1/64), 0⟩ := by
  simp only [fieldAt, trilin, a0, aX, aY, aZ, aXY, aYZ, aZX, aXYZ, cdC7, pB7,
    Vec3.mk.injEq]
  norm_num

theorem c7_jacC : jacLocal cdC7 pQ7 = ⟨-5/512, 13/8, 0, -41/64, 40, 0, 0, 0, 1⟩ := by
  simp only [jacLocal, dX, dY, dZ, aX, aY, aZ, aXY, aYZ, aZX, aXYZ, cdC7, pQ7,
    Mat3.mk.injEq]
  norm_num

theorem c7_fieldC : fieldAt cdC7 pQ7 = ⟨1/64, -(1/64), 0⟩ := by
  simp only [fieldAt, trilin, a0, aX, aY, aZ, aXY, aYZ, aZX, aXYZ, cdC7, pQ7,
    Vec3.mk.injEq]
  norm_num

theorem c7_step1 : newtonStep cdC7 initialGuess = pB7 :=
  newtonStep_spec cdC7 initialGuess pB7 ⟨-77/512, 1/2, 0, -1/2, 329/8, 0, 0, 0, 1⟩
    ⟨-179/4096, -325/64, 0⟩ ⟨1/8, 1/8, 0⟩ c7_jacA c7_fieldA (by norm_num [det3])
    (by norm_num) (by norm_num) (by norm_num)
    (by norm_num [initialGuess, pB7, Vec3.mk.injEq])

theorem c7_step2 : newtonStep cdC7 pB7 = pQ7 :=
  newtonStep_spec cdC7 pB7 pQ7 ⟨-13/512, 5/8, 0, -5/8, 41, 0, 0, 0, 1⟩
    ⟨1/64, -(1/64), 0⟩ ⟨1, 1/64, 0⟩ c7_jacB c7_fieldB (by norm_num [det3])
    (by norm_num) (by norm_num) (by norm_num)
    (by norm_num [pB7, pQ7, Vec3.mk.injEq])

theorem c7_step3 : newtonStep cdC7 pQ7 = pB7 :=
  newtonStep_spec cdC7 pQ7 pB7 ⟨-5/512, 13/8, 0, -41/64, 40, 0, 0, 0, 1⟩
    ⟨1/64, -(1/64), 0⟩ ⟨-1, -(1/64), 0⟩ c7_jacC c7_fieldC (by norm_num [det3])
    (by norm_num) (by norm_num) (by norm_num)
    (by norm_num [pB7, pQ7, Vec3.mk.injEq])

theorem c7_notconv_BQ :
    ¬(maxAbs (Vec3.sub pQ7 pB7) < 1/4 ∧ maxAbs (fieldAt cdC7 pQ7) < 1) := by
  intro hc
  have h := hc.1
  norm_num [maxAbs, Vec3.sub, pB7, pQ7, abs_of_pos, abs_of_nonneg] at h

theorem c7_notconv_QB :
    ¬(maxAbs (Vec3.sub pB7 pQ7) < 1/4 ∧ maxAbs (fieldAt cdC7 pB7) < 1) := by
  intro hc
  have h := hc.1
  norm_num [maxAbs, Vec3.sub, pB7, pQ7, abs_of_nonneg, abs_sub_comm] at h

theorem c7_cycle (n : ℕ) :
    nrLoop cdC7 (1/4) 1 n pB7 = none ∧ nrLoop cdC7 (1/4) 1 n pQ7 = none := by
  induction n with
  | zero => exact ⟨rfl, rfl⟩
  | succ m ih =>
    constructor
    · rw [nrLoop_succ, c7_step2, if_neg c7_notconv_BQ]
      exact ih.2
    · rw [nrLoop_succ, c7_step3, if_neg c7_notconv_QB]
      exact ih.1

theorem c7_run1 : refine cdC7 (1/4) 1 = some pB7 := by
  have hloop : nrLoop cdC7 (1/4) 1 MAXITER initialGuess = some pB7 := by
    have h500 : MAXITER = 499 + 1 := rfl
    rw [h500, nrLoop_succ, c7_step1]
    rw [if_pos ?_]
    constructor
    · norm_num [maxAbs, Vec3.sub, pB7, initialGuess, abs_of_pos, abs_of_nonneg]
    · rw [c7_fieldB]
      norm_num [maxAbs, abs_of_pos, abs_of_nonneg]
  unfold refine refineFrom
  rw [hloop]
  simp only
  rw [if_pos (by norm_num [inUnitCube, pB7])]

theorem refineFrom_none (cd : CellData) (ptol ftol : ℚ) (p : Vec3)
    (h : nrLoop cd ptol ftol MAXITER p = none) :
    refineFrom cd ptol ftol p = none := by
  unfold refineFrom
  rw [h]

theorem c7_run2 : refineFrom cdC7 (1/4) 1 pB7 = none :=
  refineFrom_none cdC7 (1/4) 1 pB7 (c7_cycle MAXITER).1

/-- C7 counterexample: on the cell cdC7 the refinement procedure converges,
from the fixed-seed initial guess, to the point pB7, yet re-running the
refinement from pB7 returns no point at all (the Newton map cycles between
two points a cell width apart until the iteration budget is exhausted), so
refinement is not idempotent. -/
theorem C7_counterexample :
    refine cdC7 (1/4) 1 = some pB7 ∧ refineFrom cdC7 (1/4) 1 pB7 = none :=
  ⟨c7_run1, c7_run2⟩

/-- C7 amended: refinement is not idempotent in general; however, whenever
the re-run from a converged output point satisfies both convergence
thresholds at its very first iteration and stays in the cell, it returns a
point within the caller-supplied position tolerance of that output point. -/
theorem C7_amended_first_step (cd : CellData) (ptol ftol : ℚ) (g p : Vec3)
    (h : refineFrom cd ptol ftol g = some p)
    (h1 : maxAbs (Vec3.sub (newtonStep cd p) p) < ptol ∧
      maxAbs (fieldAt cd (newtonStep cd p)) < ftol ∧ inUnitCube (newtonStep cd p)) :
    inUnitCube p ∧ refineFrom cd ptol ftol p = some (newtonStep cd p) ∧
      maxAbs (Vec3.sub (newtonStep cd p) p) < ptol := by
  refine ⟨?_, ?_, h1.1⟩
  · unfold refineFrom at h
    cases hnl : nrLoop cd ptol ftol MAXITER g with
    | none =>
      rw [hnl] at h
      exact Option.noConfusion h
    | some q =>
      rw [hnl] at h
      simp only at h
      split_ifs at h with hq
      have hqp := Option.some.inj h
      rw [hqp] at hq
      exact hq
  · have hloop : nrLoop cd ptol ftol MAXITER p = some (newtonStep cd p) := by
      have h500 : MAXITER = 499 + 1 := rfl
      rw [h500, nrLoop_succ]
      rw [if_pos ⟨h1.1, h1.2.1⟩]
    unfold refineFrom
    rw [hloop]
    simp only
    rw [if_pos h1.2.2]

/-- C7 amended witness: the first-step statement applied at the concrete
cell cd3, whose refinement converges to the exact root (1/2, 1/2, 1/2) and
re-converges there immediately. -/
theorem C7_amended_witness :
    refineFrom cd3 tolC tolC initialGuess = some ⟨1/2, 1/2, 1/2⟩ ∧
      refineFrom cd3 tolC tolC ⟨1/2, 1/2, 1/2⟩ = some (newtonStep cd3 ⟨1/2, 1/2, 1/2⟩) := by
  have h : refineFrom cd3 tolC tolC initialGuess = some ⟨1/2, 1/2, 1/2⟩ := cd3_refine
  have h1 : maxAbs (Vec3.sub (newtonStep cd3 ⟨1/2, 1/2, 1/2⟩) ⟨1/2, 1/2, 1/2⟩) < tolC ∧
      maxAbs (fieldAt cd3 (newtonStep cd3 ⟨1/2, 1/2, 1/2⟩)) < tolC ∧
      inUnitCube (newtonStep cd3 ⟨1/2, 1/2, 1/2⟩) := by
    rw [cd3_step]
    refine ⟨?_, ?_, ?_⟩
    · norm_num [maxAbs, Vec3.sub, tolC]
    · rw [cd3_field]
      norm_num [maxAbs, tolC]
    · norm_num [inUnitCube]
  exact ⟨h, (C7_amended_first_step cd3 tolC tolC initialGuess ⟨1/2, 1/2, 1/2⟩ h h1).2.1⟩

theorem d2_xs_len : d2.xs.length = 34 := by
  simp [d2, uniformField]

theorem d2_ys_len : d2.ys.length = 34 := by
  simp [d2, uniformField]

theorem d2_zs_len : d2.zs.length = 34 := by
  simp [d2, uniformField]

theorem d2_coordX (t : ℕ) (h : t < 34) : coordX d2 t = 1 + 3/100 * t := by
  unfold coordX d2 uniformField
  simp only
  rw [getD_range_map _ _ _ _ h]

theorem d2_coordY (t : ℕ) (h : t < 34) : coordY d2 t = 1 + 3/100 * t := by
  unfold coordY d2 uniformField
  simp only
  rw [getD_range_map _ _ _ _ h]

theorem d2_coordZ (t : ℕ) (h : t < 34) : coordZ d2 t = 1 + 3/100 * t := by
  unfold coordZ d2 uniformField
  simp only
  rw [getD_range_map _ _ _ _ h]

theorem d2_arrU (i j k : ℕ) (hi : i < 34) (hj : j < 34) (hk : k < 34) :
    arr3Get d2.u i j k =
      (magnetic_field (1 + 3/100 * i) (1 + 3/100 * j) (1 + 3/100 * k)).x := by
  simp only [arr3Get, d2, uniformField, List.getD_eq_getElem?_getD, List.getElem?_map,
    List.getElem?_range hi, List.getElem?_range hj, List.getElem?_range hk,
    Option.map_some', Option.getD_some]

theorem d2_arrV (i j k : ℕ) (hi : i < 34) (hj : j < 34) (hk : k < 34) :
    arr3Get d2.v i j k =
      (magnetic_field (1 + 3/100 * i) (1 + 3/100 * j) (1 + 3/100 * k)).y := by
  simp only [arr3Get, d2, uniformField, List.getD_eq_getElem?_getD, List.getElem?_map,
    List.getElem?_range hi, List.getElem?_range hj, List.getElem?_range hk,
    Option.map_some', Option.getD_some]

theorem d2_arrW (i j k : ℕ) (hi : i < 34) (hj : j < 34) (hk : k < 34) :
    arr3Get d2.w i j k =
      (magnetic_field (1 + 3/100 * i) (1 + 3/100 * j) (1 + 3/100 * k)).z := by
  simp only [arr3Get, d2, uniformField, List.getD_eq_getElem?_getD, List.getElem?_map,
    List.getElem?_range hi, List.getElem?_range hj, List.getElem?_range hk,
    Option.map_some', Option.getD_some]

theorem cd2_eq : cellOf d2 16 16 16 = cdE := by
  simp only [cellOf, cdE, CellData.mk.injEq]
  refine ⟨?_, ?_, ?_, ?_, ?_, ?_, ?_, ?_, ?_⟩
  · funext b1 b2 b3
    cases b1 <;> cases b2 <;> cases b3 <;>
      rw [d2_arrU _ _ _ (by norm_num) (by norm_num) (by norm_num)] <;>
      norm_num [magnetic_field, bq]
  · funext b1 b2 b3
    cases b1 <;> cases b2 <;> cases b3 <;>
      rw [d2_arrV _ _ _ (by norm_num) (by norm_num) (by norm_num)] <;>
      norm_num [magnetic_field, bq]
  · funext b1 b2 b3
    cases b1 <;> cases b2 <;> cases b3 <;>
      rw [d2_arrW _ _ _ (by norm_num) (by norm_num) (by norm_num)] <;>
      norm_num [magnetic_field, bq]
  · rw [d2_coordX 16 (by norm_num)]
    norm_num
  · rw [d2_coordX 17 (by norm_num), d2_coordX 16 (by norm_num)]
    norm_num
  · rw [d2_coordY 16 (by norm_num)]
    norm_num
  · rw [d2_coordY 17 (by norm_num), d2_coordY 16 (by norm_num)]
    norm_num
  · rw [d2_coordZ 16 (by norm_num)]
    norm_num
  · rw [d2_coordZ 17 (by norm_num), d2_coordZ 16 (by norm_num)]
    norm_num

theorem cdE_field (p : Vec3) :
    fieldAt cdE p = ⟨9/10^4 * (p.y - 2/3) * (p.z - 2/3),
      9/10^4 * (p.x - 2/3) * (p.z - 2/3), 9/10^4 * (p.x - 2/3) * (p.y - 2/3)⟩ := by
  simp only [fieldAt, trilin, a0, aX, aY, aZ, aXY, aYZ, aZX, aXYZ, cdE, bq,
    Vec3.mk.injEq]
  norm_num
  repeat' apply And.intro
  all_goals ring

theorem cdE_jac_sym (t : ℚ) :
    jacLocal cdE ⟨2/3 - t, 2/3 - t, 2/3 - t⟩ =
      ⟨0, -(9/10^4) * t, -(9/10^4) * t, -(9/10^4) * t, 0, -(9/10^4) * t,
        -(9/10^4) * t, -(9/10^4) * t, 0⟩ := by
  simp only [jacLocal, dX, dY, dZ, aX, aY, aZ, aXY, aYZ, aZX, aXYZ, cdE, bq,
    Mat3.mk.injEq]
  norm_num
  repeat' apply And.intro
  all_goals ring

theorem cdE_field_sym (t : ℚ) :
    fieldAt cdE ⟨2/3 - t, 2/3 - t, 2/3 - t⟩ =
      ⟨9/10^4 * t^2, 9/10^4 * t^2, 9/10^4 * t^2⟩ := by
  rw [cdE_field]
  simp only [Vec3.mk.injEq]
  repeat' apply And.intro
  all_goals ring

theorem cdE_step (t : ℚ) (ht : t ≠ 0) :
    newtonStep cdE ⟨2/3 - t, 2/3 - t, 2/3 - t⟩ = ⟨2/3 - t/2, 2/3 - t/2, 2/3 - t/2⟩ := by
  have hdetne : det3 (⟨0, -(9/10^4) * t, -(9/10^4) * t, -(9/10^4) * t, 0,
      -(9/10^4) * t, -(9/10^4) * t, -(9/10^4) * t, 0⟩ : Mat3) ≠ 0 := by
    simp only [det3]
    intro h
    apply ht
    ring_nf at h
    have h3 : t ^ 3 = 0 := by linarith
    exact pow_eq_zero_iff (by norm_num) |>.mp h3
  have hs : solve3 (⟨0, -(9/10^4) * t, -(9/10^4) * t, -(9/10^4) * t, 0,
      -(9/10^4) * t, -(9/10^4) * t, -(9/10^4) * t, 0⟩ : Mat3)
      ⟨-(9/10^4 * t^2), -(9/10^4 * t^2), -(9/10^4 * t^2)⟩ = ⟨t/2, t/2, t/2⟩ := by
    refine solve3_spec _ _ _ hdetne ?_ ?_ ?_ <;> simp only <;> ring
  simp only [newtonStep]
  rw [cdE_jac_sym, cdE_field_sym]
  rw [if_neg hdetne]
  simp only
  rw [hs]
  simp only [Vec3.mk.injEq]
  repeat' apply And.intro
  all_goals ring

theorem eC2_pos (k : ℕ) : 0 < eC2 k := by
  unfold eC2
  positivity

theorem eC2_succ (k : ℕ) : eC2 (k + 1) = eC2 k / 2 := by
  unfold eC2
  rw [pow_succ]
  ring

theorem pC2_step (k : ℕ) : newtonStep cdE (pC2 k) = pC2 (k + 1) := by
  have h := cdE_step (eC2 k) (ne_of_gt (eC2_pos k))
  unfold pC2
  rw [eC2_succ]
  exact h

theorem pC2_step_size (k : ℕ) :
    maxAbs (Vec3.sub (pC2 (k + 1)) (pC2 k)) = eC2 (k + 1) := by
  have he : 0 < eC2 (k + 1) := eC2_pos (k + 1)
  have hsub : Vec3.sub (pC2 (k + 1)) (pC2 k) = ⟨eC2 (k+1), eC2 (k+1), eC2 (k+1)⟩ := by
    unfold Vec3.sub pC2
    rw [eC2_succ]
    simp only [Vec3.mk.injEq]
    repeat' apply And.intro
    all_goals ring
  rw [hsub]
  unfold maxAbs
  simp only
  rw [abs_of_pos he, max_self, max_self]

theorem fieldAt_pC2 (k : ℕ) :
    fieldAt cdE (pC2 k) =
      ⟨9/10^4 * (eC2 k)^2, 9/10^4 * (eC2 k)^2, 9/10^4 * (eC2 k)^2⟩ := by
  unfold pC2
  exact cdE_field_sym (eC2 k)

theorem fieldAt_pC2_size (k : ℕ) :
    maxAbs (fieldAt cdE (pC2 k)) = 9/10^4 * (eC2 k)^2 := by
  rw [fieldAt_pC2]
  have hp : (0:ℚ) < 9/10^4 * (eC2 k)^2 := by
    have := eC2_pos k
    positivity
  unfold maxAbs
  simp only
  rw [abs_of_pos hp, max_self, max_self]

theorem c2_conv_fail (k : ℕ) (hk : k + 1 ≤ 30) :
    ¬(maxAbs (Vec3.sub (pC2 (k + 1)) (pC2 k)) < tolC ∧
      maxAbs (fieldAt cdE (pC2 (k + 1))) < tolC) := by
  intro hc
  have h1 := hc.1
  rw [pC2_step_size] at h1
  unfold eC2 tolC at h1
  have hp : (0:ℚ) < 6 * 2 ^ (k + 1) := by positivity
  rw [div_lt_div_iff hp (by norm_num)] at h1
  have hb : (2:ℚ) ^ (k + 1) ≤ 2 ^ 30 := by
    apply pow_le_pow_right (by norm_num) hk
  have hc30 : (6:ℚ) * 2 ^ 30 < 10 ^ 10 := by norm_num
  nlinarith

theorem c2_conv_succeed :
    maxAbs (Vec3.sub (pC2 31) (pC2 30)) < tolC ∧
      maxAbs (fieldAt cdE (pC2 31)) < tolC := by
  constructor
  · rw [show (31 : ℕ) = 30 + 1 from rfl, pC2_step_size]
    unfold eC2 tolC
    norm_num
  · rw [fieldAt_pC2_size]
    unfold eC2 tolC
    norm_num

theorem c2_loop : ∀ n k, k ≤ 30 → 31 - k ≤ n →
    nrLoop cdE tolC tolC n (pC2 k) = some (pC2 31) := by
  intro n
  induction n with
  | zero =>
    intro k hk hn
    exact absurd hn (by omega)
  | succ m ih =>
    intro k hk hn
    rw [nrLoop_succ, pC2_step k]
    rcases eq_or_lt_of_le hk with heq | hlt
    · subst heq
      rw [if_pos c2_conv_succeed]
    · have hk' : k + 1 ≤ 30 := by omega
      rw [if_neg (c2_conv_fail k hk')]
      exact ih (k + 1) hk' (by omega)

theorem c2_cube31 : inUnitCube (pC2 31) := by
  unfold inUnitCube pC2 eC2
  norm_num

theorem c2_refine : refine cdE tolC tolC = some (pC2 31) := by
  have hg : initialGuess = pC2 0 := by
    unfold initialGuess pC2 eC2
    norm_num
  unfold refine refineFrom
  rw [hg, c2_loop MAXITER 0 (by norm_num) (by norm_num [MAXITER])]
  simp only
  rw [if_pos c2_cube31]

theorem c2_jacPhys : jacPhys cdE (pC2 31) = jac31 := by
  have hjl : jacLocal cdE (pC2 31) =
      ⟨0, -(9/10^4) * eC2 31, -(9/10^4) * eC2 31, -(9/10^4) * eC2 31, 0,
        -(9/10^4) * eC2 31, -(9/10^4) * eC2 31, -(9/10^4) * eC2 31, 0⟩ :=
    cdE_jac_sym (eC2 31)
  unfold jacPhys jac31 mC2
  unfold jacLocal at hjl
  simp only [Mat3.mk.injEq] at hjl
  obtain ⟨e1, e2, e3, e4, e5, e6, e7, e8, e9⟩ := hjl
  rw [e1, e2, e3, e4, e5, e6, e7, e8, e9]
  simp only [cdE, Mat3.mk.injEq]
  unfold eC2
  norm_num

theorem c2_classify : classify jac31 = NullClass.improperDegenerate := by
  have hΔ : discrimCubic (traceM jac31) (minorSum jac31) (det3 jac31) = 0 := by
    simp only [discrimCubic, traceM, minorSum, det3, jac31, mC2]
    ring
  unfold classify
  rw [if_pos (Or.inr hΔ)]

theorem cdE_not_rejected : ¬rejected cdE := by
  intro hrej
  rcases hrej with h | h | h <;> rcases h with h | h
  · have := h false true false
    norm_num [cdE, bq] at this
  · have := h false false false
    norm_num [cdE, bq] at this
  · have := h true false false
    norm_num [cdE, bq] at this
  · have := h false false false
    norm_num [cdE, bq] at this
  · have := h true false false
    norm_num [cdE, bq] at this
  · have := h false false false
    norm_num [cdE, bq] at this

theorem cdE_trilinearOK : trilinearOK cdE := by
  refine ⟨⟨2/3, 2/3, 2/3⟩, by norm_num [inUnitCube], ?_⟩
  rw [cdE_field]
  norm_num

theorem refineFrom_some_cube (cd : CellData) (ptol ftol : ℚ) (g p : Vec3)
    (h : refineFrom cd ptol ftol g = some p) : inUnitCube p := by
  unfold refineFrom at h
  cases hnl : nrLoop cd ptol ftol MAXITER g with
  | none =>
    rw [hnl] at h
    exact Option.noConfusion h
  | some q =>
    rw [hnl] at h
    simp only at h
    split_ifs at h with hq
    have hqp := Option.some.inj h
    rw [hqp] at hq
    exact hq

theorem physLoc_d2 (i j k : ℕ) (hi : i + 1 < 34) (hj : j + 1 < 34) (hk : k + 1 < 34)
    (p : Vec3) :
    physLoc (cellOf d2 i j k) p =
      ⟨1 + 3/100 * i + 3/100 * p.x, 1 + 3/100 * j + 3/100 * p.y,
        1 + 3/100 * k + 3/100 * p.z⟩ := by
  unfold physLoc cellOf
  simp only
  rw [d2_coordX i (by omega), d2_coordX (i+1) (by omega), d2_coordY j (by omega),
    d2_coordY (j+1) (by omega), d2_coordZ k (by omega), d2_coordZ (k+1) (by omega)]
  simp only [Vec3.mk.injEq]
  refine ⟨?_, ?_, ?_⟩ <;> push_cast <;> ring

theorem axis16 (i : ℕ) (hi : i + 1 < 34) (t : ℚ) (h0 : 0 ≤ t) (h1 : t ≤ 1)
    (hb : |1 + 3/100 * (i:ℚ) + 3/100 * t - 3/2| < 1/10^6) : i = 16 := by
  rw [abs_lt] at hb
  obtain ⟨hb1, hb2⟩ := hb
  by_contra hne
  rcases Nat.lt_or_ge i 16 with hlt | hge
  · have hle : (i:ℚ) ≤ 15 := by exact_mod_cast Nat.le_of_lt_succ hlt
    linarith
  · have h17 : 17 ≤ i := by omega
    have hge17 : (17:ℚ) ≤ i := by exact_mod_cast h17
    linarith

/-- C2 amended: for the uniform-grid notebook input (the analytic field
sampled on the cube with spacing 3/100), the result set contains a null
point within 10^-6 of (3/2, 3/2, 3/2) whose classification is the
improper/degenerate tag: the Jacobian at the converged root has the
eigenvalue pattern (2h, -h, -h), and the classifier of section 4.5 flags
the repeated eigenvalue as improper/degenerate rather than radial. -/
theorem C2_amended_uniform_grid_degenerate :
    ∃ np, Results d2 tolC tolC np ∧
      maxAbs (Vec3.sub np.loc ⟨3/2, 3/2, 3/2⟩) < 1/10^6 ∧
      np.classification = NullClass.improperDegenerate := by
  refine ⟨⟨physLoc (cellOf d2 16 16 16) (pC2 31),
      classify (jacPhys (cellOf d2 16 16 16) (pC2 31)), (16, 16, 16)⟩,
    ⟨16, 16, 16, pC2 31, ?_, ?_, ?_, ?_, ?_, ?_, rfl⟩, ?_, ?_⟩
  · rw [d2_xs_len]
    norm_num
  · rw [d2_ys_len]
    norm_num
  · rw [d2_zs_len]
    norm_num
  · rw [cd2_eq]
    exact cdE_not_rejected
  · rw [cd2_eq]
    exact cdE_trilinearOK
  · rw [cd2_eq]
    exact c2_refine
  · show maxAbs (Vec3.sub (physLoc (cellOf d2 16 16 16) (pC2 31)) ⟨3/2, 3/2, 3/2⟩) <
      1/10^6
    rw [physLoc_d2 16 16 16 (by norm_num) (by norm_num) (by norm_num)]
    unfold pC2 eC2 maxAbs Vec3.sub
    simp only
    norm_num [abs_lt, max_lt_iff]
  · show classify (jacPhys (cellOf d2 16 16 16) (pC2 31)) = NullClass.improperDegenerate
    rw [cd2_eq, c2_jacPhys]
    exact c2_classify

/-- C2 counterexample: the claim as stated is false on the model: the null
point that the uniform-grid run finds near (3/2, 3/2, 3/2) is not
classified as a radial null of either kind, because the Jacobian at the
converged root has a repeated eigenvalue and section 4.5 flags repeated
eigenvalues as improper/degenerate. -/
theorem C2_counterexample_not_radial :
    ¬∃ np, Results d2 tolC tolC np ∧
      maxAbs (Vec3.sub np.loc ⟨3/2, 3/2, 3/2⟩) < 1/10^6 ∧
      (np.classification = NullClass.positiveRadial ∨
        np.classification = NullClass.negativeRadial) := by
  rintro ⟨np, ⟨i, j, k, p, hi, hj, hk, hrej, htri, hrefine, hnp⟩, hnear, hcls⟩
  rw [d2_xs_len] at hi
  rw [d2_ys_len] at hj
  rw [d2_zs_len] at hk
  have hcube : inUnitCube p := refineFrom_some_cube _ _ _ _ _ hrefine
  obtain ⟨⟨hx0, hx1⟩, ⟨hy0, hy1⟩, ⟨hz0, hz1⟩⟩ := hcube
  subst hnp
  have hnear' : maxAbs (Vec3.sub (physLoc (cellOf d2 i j k) p) ⟨3/2, 3/2, 3/2⟩) <
      1/10^6 := hnear
  rw [physLoc_d2 i j k hi hj hk] at hnear'
  unfold maxAbs Vec3.sub at hnear'
  simp only at hnear'
  rw [max_lt_iff, max_lt_iff] at hnear'
  obtain ⟨hbx, hby, hbz⟩ := hnear'
  have hi16 : i = 16 := axis16 i hi p.x hx0 hx1 hbx
  have hj16 : j = 16 := axis16 j hj p.y hy0 hy1 hby
  have hk16 : k = 16 := axis16 k hk p.z hz0 hz1 hbz
  subst hi16
  subst hj16
  subst hk16
  have hp31 : p = pC2 31 := by
    have h1 : refine (cellOf d2 16 16 16) tolC tolC = some p := hrefine
    rw [cd2_eq, c2_refine] at h1
    exact (Option.some.inj h1).symm
  subst hp31
  have hcls' : classify (jacPhys (cellOf d2 16 16 16) (pC2 31)) =
      NullClass.positiveRadial ∨
      classify (jacPhys (cellOf d2 16 16 16) (pC2 31)) = NullClass.negativeRadial :=
    hcls
  rw [cd2_eq, c2_jacPhys, c2_classify] at hcls'
  rcases hcls' with h | h <;> exact NullClass.noConfusion h

end NullpointSpec

namespace SweptLangmuir

theorem fitLinear_some_slope (volt cur : List ℚ) (a b : ℕ) (e : VFExtras)
    (h : fitLinear volt cur a b = some e) : e.slope ≠ 0 := by
  simp only [fitLinear] at h
  split_ifs at h with hden hm
  have he := Option.some.inj h
  rw [← he]
  simpa using hm

/-- C10: whenever find_floating_potential returns a non-NaN result, the
returned floating potential is an exact root of the returned fitted
function, because it is computed by solving that function for its root. -/
theorem C10_vf_is_root (volt cur : List ℚ) (thr minPts : ℕ) (vf : ℚ) (e : VFExtras)
    (h : find_floating_potential volt cur thr minPts = some (vf, e)) :
    e.fitted_func vf = 0 := by
  unfold find_floating_potential at h
  cases hres : resolveIslands minPts (crossings cur) (groupIslands thr (crossings cur)) with
  | none =>
    rw [hres] at h
    exact Option.noConfusion h
  | some isl =>
    rw [hres] at h
    simp only [fitStage] at h
    cases hfit : fitLinear volt cur
        (padSlice cur.length minPts (isl.head?.getD 0) (isl.getLast?.getD 0)).1
        (padSlice cur.length minPts (isl.head?.getD 0) (isl.getLast?.getD 0)).2 with
    | none =>
      rw [hfit] at h
      exact Option.noConfusion h
    | some e' =>
      rw [hfit] at h
      simp only at h
      have hpair := Option.some.inj h
      have hv : vf = -e'.intercept / e'.slope := (congrArg Prod.fst hpair).symm
      have he : e = e' := (congrArg Prod.snd hpair).symm
      have hslope : e'.slope ≠ 0 := fitLinear_some_slope volt cur _ _ e' hfit
      rw [he, hv]
      unfold VFExtras.fitted_func
      field_simp
      ring

/-- C10 witness: the root property applied at the concrete trace curW, whose
fit is the line 2 V - 3 with root 3/2. -/
theorem C10_witness :
    find_floating_potential voltW curW 4 2 = some (3/2, ⟨2, -3⟩) ∧
      VFExtras.fitted_func ⟨2, -3⟩ (3/2) = 0 := by
  have hcross : crossings curW = [1, 2] := by
    norm_num [crossings, curW, isCross, List.range_succ, List.filter]
  have hffp : find_floating_potential voltW curW 4 2 = some (3/2, ⟨2, -3⟩) := by
    unfold find_floating_potential
    rw [hcross]
    norm_num [groupIslands, resolveIslands, fitStage, padSlice, fitLinear, sliceSum,
      List.range_succ, curW, voltW]
  exact ⟨hffp, C10_vf_is_root voltW curW 4 2 (3/2) ⟨2, -3⟩ hffp⟩

/-- C9: with more than one crossing-island, a total island span exceeding
min_points makes find_floating_potential return the NaN outcome without
fitting, while a span of at most min_points overrides the threshold
grouping: all crossing points are merged into one island which is then
fitted. -/
theorem C9_island_resolution (volt cur : List ℚ) (thr minPts : ℕ)
    (h2 : 1 < (groupIslands thr (crossings cur)).length) :
    (minPts < crossSpan (crossings cur) →
      find_floating_potential volt cur thr minPts = none) ∧
    (crossSpan (crossings cur) ≤ minPts →
      find_floating_potential volt cur thr minPts =
        fitStage volt cur minPts (crossings cur)) := by
  unfold find_floating_potential
  rcases hgi : groupIslands thr (crossings cur) with _ | ⟨a, rest⟩
  · rw [hgi] at h2
    norm_num at h2
  · rcases rest with _ | ⟨b, rest2⟩
    · rw [hgi] at h2
      norm_num at h2
    · constructor
      · intro hspan
        simp only [resolveIslands]
        rw [if_pos hspan]
      · intro hspan
        simp only [resolveIslands]
        rw [if_neg (not_lt.mpr hspan)]

/-- C9 witness: the NaN branch applied at the concrete two-island trace
curW9, whose islands [0,1] and [5,6] have total span 7 exceeding
min_points 3. -/
theorem C9_witness :
    1 < (groupIslands 2 (crossings curW9)).length ∧
      find_floating_potential voltW9 curW9 2 3 = none := by
  have hcross : crossings curW9 = [0, 1, 5, 6] := by
    norm_num [crossings, curW9, isCross, List.range_succ, List.filter]
  have hgrp : groupIslands 2 (crossings curW9) = [[0, 1], [5, 6]] := by
    rw [hcross]
    norm_num [groupIslands]
  have hlen : 1 < (groupIslands 2 (crossings curW9)).length := by
    rw [hgrp]
    norm_num
  have hspan : 3 < crossSpan (crossings curW9) := by
    rw [hcross]
    norm_num [crossSpan]
  exact ⟨hlen, (C9_island_resolution voltW9 curW9 2 3 hlen).1 hspan⟩

end SweptLangmuir
